import Mathlib

/-!
Verification of the intraday signal-detection and backtesting engine of the
convertible-bond selection project.

The repository ships only a Next.js frontend page (`src/frontend/src/app/page.tsx`)
and planning documents; the engine itself (Indicator Engine, Signal Detector,
Strategy Engine, Backtest Simulator) is specified in the design document but its
implementation is not present in the source tree.  The engine definitions below
are therefore modelled from the specification text, faithfully following its
formulas and state-machine descriptions; the `Home` page component is embedded
directly from the TypeScript source.

All prices, volumes and indicator values are modelled as rationals (ℚ), so the
batch/incremental equivalence statements are exact rather than merely within
floating-point tolerance.
-/

/-- Modelled from the spec: an OHLCV bar {timestamp, open, high, low, close, volume}
(§3 Data Model).  Timestamps are naturals, prices and volume rationals. -/
structure Bar where
  timestamp : ℕ
  open_p : ℚ
  high : ℚ
  low : ℚ
  close : ℚ
  volume : ℚ
deriving DecidableEq

/-- Modelled from the spec: the running state of one exponential moving average
with warm-up (§4.1).  During warm-up (`ema = none`) it accumulates the sum of
the first `period` values; the seed is their simple average. -/
structure EmaState where
  count : ℕ
  sum : ℚ
  ema : Option ℚ
deriving DecidableEq

/-- The EMA smoothing constant `k = 2/(period+1)` (§4.1). -/
def emaK (p : ℕ) : ℚ := 2 / (p + 1)

/-- The EMA recurrence `ema_t = value_t * k + ema_{t-1} * (1-k)` (§4.1). -/
def emaRec (p : ℕ) (e v : ℚ) : ℚ := v * emaK p + e * (1 - emaK p)

/-- Empty EMA state: nothing seen yet. -/
def EmaState.init : EmaState := ⟨0, 0, none⟩

/-- Modelled from the spec: one incremental EMA update.  While fewer than
`p` values have been seen the state only accumulates; on the `p`-th value the
EMA is seeded with the simple average of the first `p` values; afterwards the
standard recurrence applies (§4.1). -/
def emaStep (p : ℕ) (s : EmaState) (v : ℚ) : EmaState :=
  match s.ema with
  | some e => ⟨s.count + 1, s.sum, some (emaRec p e v)⟩
  | none =>
      let sum := s.sum + v
      ⟨s.count + 1, sum, if s.count + 1 = p then some (sum / p) else none⟩

/-- Batch EMA over a full value sequence: undefined on fewer than `p` values,
otherwise the recurrence folded from the simple-average seed of the first `p`
values (§4.1, "warm-up uses the simple average of the first `period` bars as
the seed"). -/
def emaBatch (p : ℕ) (vs : List ℚ) : Option ℚ :=
  if vs.length < p then none
  else some ((vs.drop p).foldl (emaRec p) ((vs.take p).sum / p))

theorem emaBatch_nil (p : ℕ) (hp : 0 < p) : emaBatch p [] = none := by
  simp [emaBatch, hp]

theorem emaStep_spec (p : ℕ) (vs : List ℚ) (v : ℚ) :
    emaStep p ⟨vs.length, (vs.take p).sum, emaBatch p vs⟩ v =
      ⟨(vs ++ [v]).length, ((vs ++ [v]).take p).sum, emaBatch p (vs ++ [v])⟩ := by
  rcases lt_or_le vs.length p with hlt | hle
  · have hb : emaBatch p vs = none := by simp [emaBatch, hlt]
    have htake : vs.take p = vs := List.take_of_length_le (le_of_lt hlt)
    rcases eq_or_lt_of_le (Nat.succ_le_of_lt hlt) with heq | hlt2
    · -- the new value completes the warm-up window: seed with the simple average
      have htake2 : (vs ++ [v]).take p = vs ++ [v] := by
        apply List.take_of_length_le; simp [← heq]
      have hb2 : emaBatch p (vs ++ [v]) = some (((vs ++ [v]).take p).sum / p) := by
        have hdrop : (vs ++ [v]).drop p = [] := by
          apply List.drop_eq_nil_of_le; simp [← heq]
        simp [emaBatch, ← heq, hdrop]
      simp [emaStep, hb, htake, heq, hb2, htake2]
      omega
    · have htake2 : (vs ++ [v]).take p = vs ++ [v] := by
        apply List.take_of_length_le; simp; omega
      have hb2 : emaBatch p (vs ++ [v]) = none := by
        simp only [emaBatch]; rw [if_pos]; simp; omega
      have hne : vs.length + 1 ≠ p := Nat.ne_of_lt hlt2
      simp [emaStep, hb, htake, hne, hb2, htake2]
  · have hb : emaBatch p vs = some ((vs.drop p).foldl (emaRec p) ((vs.take p).sum / p)) := by
      simp [emaBatch, Nat.not_lt.mpr hle]
    have htake2 : (vs ++ [v]).take p = vs.take p := List.take_append_of_le_length hle
    have hdrop2 : (vs ++ [v]).drop p = vs.drop p ++ [v] := List.drop_append_of_le_length hle
    have hb2 : emaBatch p (vs ++ [v]) =
        some (emaRec p ((vs.drop p).foldl (emaRec p) ((vs.take p).sum / p)) v) := by
      have hnl : ¬ (vs ++ [v]).length < p := by simp; omega
      simp [emaBatch, hnl, htake2, hdrop2, List.foldl_append]
      omega
    simp [emaStep, hb, hb2, htake2]

theorem emaFold_eq (p : ℕ) (hp : 0 < p) (vs : List ℚ) :
    vs.foldl (emaStep p) EmaState.init =
      ⟨vs.length, (vs.take p).sum, emaBatch p vs⟩ := by
  induction vs using List.reverseRecOn with
  | nil => simp [EmaState.init, emaBatch_nil p hp]
  | append_singleton vs v ih =>
      rw [List.foldl_append, ih]
      simpa using emaStep_spec p vs v

/-- Combine two optional indicator values with a binary operation; `none`
(not yet defined) propagates. -/
def omap2 (f : ℚ → ℚ → ℚ) : Option ℚ → Option ℚ → Option ℚ
  | some a, some b => some (f a b)
  | _, _ => none

/-- Batch MACD over a close-price sequence: `MACD = ema12 - ema26` (§4.1). -/
def macdBatch (vs : List ℚ) : Option ℚ :=
  omap2 (fun a b => a - b) (emaBatch 12 vs) (emaBatch 26 vs)

/-- The sequence of defined MACD values over all prefixes of the close-price
sequence, in order: the series that `signal = EMA9(MACD)` is taken over (§4.1). -/
def macdSeries (vs : List ℚ) : List ℚ :=
  (List.range vs.length).filterMap (fun i => macdBatch (vs.take (i + 1)))

/-- Batch signal line: `signal = EMA9(MACD)` (§4.1). -/
def signalBatch (vs : List ℚ) : Option ℚ := emaBatch 9 (macdSeries vs)

/-- Batch histogram: `histogram = MACD - signal` (§4.1). -/
def histogramBatch (vs : List ℚ) : Option ℚ :=
  omap2 (fun a b => a - b) (macdBatch vs) (signalBatch vs)

theorem filterMap_singleton (f : ℕ → Option ℚ) (a : ℕ) :
    [a].filterMap f = (f a).toList := by
  cases hfa : f a <;> simp [List.filterMap, hfa]

theorem macdSeries_append (vs : List ℚ) (v : ℚ) :
    macdSeries (vs ++ [v]) = macdSeries vs ++ (macdBatch (vs ++ [v])).toList := by
  unfold macdSeries
  have hlen : (vs ++ [v]).length = vs.length + 1 := by simp
  rw [hlen, List.range_succ, List.filterMap_append]
  congr 1
  · apply List.filterMap_congr
    intro i hi
    rw [List.mem_range] at hi
    rw [List.take_append_of_le_length (by omega)]
  · rw [filterMap_singleton]
    congr 1
    rw [List.take_of_length_le (by simp)]

/-- Modelled from the spec: the per-symbol running indicator state
{ema12, ema26, signal_ema9, bars_seen} plus the rolling window of the most
recent `volume_window` volumes (most recent first), from which the derived
values macd, histogram and volume_sma of §3's IndicatorState are computed in
each snapshot (§3, §4.1). -/
structure IndicatorState where
  bars_seen : ℕ
  ema12 : EmaState
  ema26 : EmaState
  signal_ema9 : EmaState
  recent_vols : List ℚ
deriving DecidableEq

/-- Fresh indicator state for a new symbol session. -/
def IndicatorState.init : IndicatorState :=
  ⟨0, EmaState.init, EmaState.init, EmaState.init, []⟩

/-- Modelled from the spec: the incremental Indicator Engine update
`update(state, bar) -> new_state` (§4.1).  The close price feeds the 12- and
26-period EMAs; as soon as both are defined their difference (the MACD value
of this bar) feeds the 9-period signal EMA; the bar volume is pushed onto the
rolling volume window of width `w`. -/
def update (w : ℕ) (s : IndicatorState) (b : Bar) : IndicatorState :=
  let e12 := emaStep 12 s.ema12 b.close
  let e26 := emaStep 26 s.ema26 b.close
  let sig :=
    match e12.ema, e26.ema with
    | some a, some c => emaStep 9 s.signal_ema9 (a - c)
    | _, _ => s.signal_ema9
  ⟨s.bars_seen + 1, e12, e26, sig, (b.volume :: s.recent_vols).take w⟩

/-- The close prices of a bar sequence, in order. -/
def closes (bars : List Bar) : List ℚ := bars.map Bar.close

/-- The volumes of a bar sequence, in order. -/
def vols (bars : List Bar) : List ℚ := bars.map Bar.volume

/-- Folding the incremental update over a bar sequence yields exactly the
batch quantities computed over the whole sequence: this is the master
invariant behind batch/incremental equivalence. -/
theorem update_fold_eq (w : ℕ) (hw : 0 < w) (bars : List Bar) :
    bars.foldl (update w) IndicatorState.init =
      ⟨bars.length,
       ⟨bars.length, ((closes bars).take 12).sum, emaBatch 12 (closes bars)⟩,
       ⟨bars.length, ((closes bars).take 26).sum, emaBatch 26 (closes bars)⟩,
       ⟨(macdSeries (closes bars)).length, ((macdSeries (closes bars)).take 9).sum,
         emaBatch 9 (macdSeries (closes bars))⟩,
       (vols bars).reverse.take w⟩ := by
  obtain ⟨w', rfl⟩ : ∃ w', w = w' + 1 := ⟨w - 1, (Nat.succ_pred_eq_of_pos hw).symm⟩
  induction bars using List.reverseRecOn with
  | nil =>
      have h12 : emaBatch 12 ([] : List ℚ) = none := emaBatch_nil 12 (by norm_num)
      have h26 : emaBatch 26 ([] : List ℚ) = none := emaBatch_nil 26 (by norm_num)
      have h9 : emaBatch 9 ([] : List ℚ) = none := emaBatch_nil 9 (by norm_num)
      simp [IndicatorState.init, EmaState.init, closes, vols, macdSeries, h12, h26, h9]
  | append_singleton bars b ih =>
      rw [List.foldl_append, List.foldl_cons, List.foldl_nil, ih]
      have hc : closes (bars ++ [b]) = closes bars ++ [b.close] := by simp [closes]
      have hv : vols (bars ++ [b]) = vols bars ++ [b.volume] := by simp [vols]
      have hlen : (closes bars).length = bars.length := by simp [closes]
      have h12 := emaStep_spec 12 (closes bars) b.close
      have h26 := emaStep_spec 26 (closes bars) b.close
      rw [hlen] at h12 h26
      have hvols : ((b.volume :: (vols bars).reverse.take (w' + 1)).take (w' + 1)) =
          ((vols bars ++ [b.volume]).reverse.take (w' + 1)) := by
        rw [List.reverse_append]
        simp only [List.reverse_cons, List.reverse_nil, List.nil_append, List.singleton_append,
          List.take_succ_cons, List.take_take]
        rw [min_eq_left (Nat.le_succ w')]
      have hlen2 : (closes bars ++ [b.close]).length = (closes bars).length + 1 := by simp
      unfold update
      rw [hc, hv]
      simp only [h12, h26, hvols]
      rcases h26b : emaBatch 26 (closes bars ++ [b.close]) with _ | c
      · have hm : macdBatch (closes bars ++ [b.close]) = none := by
          rcases h12b : emaBatch 12 (closes bars ++ [b.close]) with _ | a <;>
            simp [macdBatch, h12b, h26b, omap2]
        have hs : macdSeries (closes bars ++ [b.close]) = macdSeries (closes bars) := by
          rw [macdSeries_append, hm]
          simp
        rcases h12b : emaBatch 12 (closes bars ++ [b.close]) with _ | a <;>
          simp [hs, hlen, hlen2]
      · have hle : 26 ≤ (closes bars).length + 1 := by
          by_contra hcon
          push_neg at hcon
          have hnone : emaBatch 26 (closes bars ++ [b.close]) = none := by
            simp only [emaBatch]
            rw [if_pos (by rw [hlen2]; omega)]
          rw [hnone] at h26b
          cases h26b
        obtain ⟨a, h12b⟩ : ∃ a, emaBatch 12 (closes bars ++ [b.close]) = some a := by
          refine ⟨((closes bars ++ [b.close]).drop 12).foldl (emaRec 12)
            (((closes bars ++ [b.close]).take 12).sum / 12), ?_⟩
          simp only [emaBatch]
          rw [if_neg (by rw [hlen2]; omega)]
          norm_num
        have hm : macdBatch (closes bars ++ [b.close]) = some (a - c) := by
          simp [macdBatch, h12b, h26b, omap2]
        have hs : macdSeries (closes bars ++ [b.close]) =
            macdSeries (closes bars) ++ [a - c] := by
          rw [macdSeries_append, hm]
          rfl
        have h9 := emaStep_spec 9 (macdSeries (closes bars)) (a - c)
        simp only [h12b, h26b, hs, h9]
        simp [hlen, hlen2]

/-- Modelled from the spec: the indicator snapshot the engine emits for one
bar.  Until `bars_seen >= max(26, volume_window) + 9` warm-up bars have been
consumed the snapshot is marked not-ready and all indicator values are
reported as `none` ("indicator values are marked not-ready", §4.1). -/
structure Snapshot where
  ready : Bool
  ema12 : Option ℚ
  ema26 : Option ℚ
  macd : Option ℚ
  signal : Option ℚ
  histogram : Option ℚ
  volume_sma : Option ℚ
  volume_ratio : Option ℚ
deriving DecidableEq

/-- The all-`none` snapshot reported during warm-up. -/
def Snapshot.notReady : Snapshot := ⟨false, none, none, none, none, none, none, none⟩

/-- Modelled from the spec: the snapshot derived from the incremental
IndicatorState: macd = ema12 - ema26, histogram = macd - signal, volume_sma a
simple rolling mean over the last `w` volumes, volume_ratio = current volume
divided by volume_sma (§4.1). -/
def snapshotOf (w : ℕ) (s : IndicatorState) : Snapshot :=
  if max 26 w + 9 ≤ s.bars_seen then
    let m := omap2 (fun a b => a - b) s.ema12.ema s.ema26.ema
    let sma : Option ℚ :=
      if w ≤ s.recent_vols.length then some (s.recent_vols.sum / w) else none
    { ready := true
      ema12 := s.ema12.ema
      ema26 := s.ema26.ema
      macd := m
      signal := s.signal_ema9.ema
      histogram := omap2 (fun a b => a - b) m s.signal_ema9.ema
      volume_sma := sma
      volume_ratio := Option.map (fun q => s.recent_vols.headI / q) sma }
  else Snapshot.notReady

/-- The pure batch computation of the snapshot over a full bar prefix: every
field is a function of the prefix list alone (§4.1, §8). -/
def batchSnapshot (w : ℕ) (bars : List Bar) : Snapshot :=
  if max 26 w + 9 ≤ bars.length then
    let lastVols := (vols bars).reverse.take w
    let sma : Option ℚ := if w ≤ lastVols.length then some (lastVols.sum / w) else none
    { ready := true
      ema12 := emaBatch 12 (closes bars)
      ema26 := emaBatch 26 (closes bars)
      macd := macdBatch (closes bars)
      signal := signalBatch (closes bars)
      histogram := histogramBatch (closes bars)
      volume_sma := sma
      volume_ratio := Option.map (fun q => lastVols.headI / q) sma }
  else Snapshot.notReady

/-- Run the incremental Indicator Engine bar-by-bar over a sequence and report
the snapshot after the last bar. -/
def incrementalSnapshot (w : ℕ) (bars : List Bar) : Snapshot :=
  snapshotOf w (bars.foldl (update w) IndicatorState.init)

theorem incremental_eq_batch (w : ℕ) (hw : 0 < w) (bars : List Bar) :
    incrementalSnapshot w bars = batchSnapshot w bars := by
  unfold incrementalSnapshot
  rw [update_fold_eq w hw bars]
  rfl

/-- A concrete bar used by the closed witness statements. -/
def demoBar : Bar := ⟨0, 1, 1, 1, 1, 1⟩

/-- C1: for every Bar sequence and every index `t`, the incremental Indicator
Engine (folding `update` bar-by-bar) produces at bar `t` exactly the same
indicator snapshot (ema12, ema26, macd, signal, histogram, volume_sma, plus
readiness and volume_ratio) as the pure batch computation over the prefix
`bars[0..t]`.  Values are rationals, so equality is exact — in particular
within floating-point tolerance. -/
theorem C1_batch_incremental_equivalence (w : ℕ) (hw : 0 < w) (bars : List Bar) (t : ℕ) :
    incrementalSnapshot w (bars.take (t + 1)) = batchSnapshot w (bars.take (t + 1)) :=
  incremental_eq_batch w hw (bars.take (t + 1))

/-- Closed witness for C1 at a concrete window and bar sequence. -/
theorem C1_witness :
    0 < 20 ∧
      incrementalSnapshot 20 (List.take 1 [demoBar]) =
        batchSnapshot 20 (List.take 1 [demoBar]) :=
  ⟨by norm_num, C1_batch_incremental_equivalence 20 (by norm_num) [demoBar] 0⟩

/-- Modelled from the spec: the discrete signal kinds (§3 Signal). -/
inductive SigKind where
  | golden_cross
  | dead_cross
  | volume_spike
deriving DecidableEq

/-- Modelled from the spec: golden cross — histogram at bar t is > 0 and
histogram at bar t-1 was ≤ 0; a sign change, not a magnitude threshold (§4.2). -/
def goldenCross (prev cur : Snapshot) : Bool :=
  match prev.histogram, cur.histogram with
  | some hp, some hc => decide (hp ≤ 0) && decide (0 < hc)
  | _, _ => false

/-- Modelled from the spec: dead cross — the mirror condition of the golden
cross (§4.2). -/
def deadCross (prev cur : Snapshot) : Bool :=
  match prev.histogram, cur.histogram with
  | some hp, some hc => decide (0 ≤ hp) && decide (hc < 0)
  | _, _ => false

/-- Modelled from the spec: volume spike — volume_ratio at bar t ≥ the
configured multiplier AND the bar is marked ready (§4.2). -/
def volumeSpike (mult : ℚ) (cur : Snapshot) : Bool :=
  cur.ready &&
    match cur.volume_ratio with
    | some r => decide (mult ≤ r)
    | none => false

/-- Modelled from the spec: the Signal Detector, stateless given two
consecutive indicator snapshots; each qualifying kind is emitted
independently (§4.2). -/
def detectSignals (mult : ℚ) (prev cur : Snapshot) : List SigKind :=
  (if goldenCross prev cur then [SigKind.golden_cross] else []) ++
    (if deadCross prev cur then [SigKind.dead_cross] else []) ++
      (if volumeSpike mult cur then [SigKind.volume_spike] else [])

theorem mem_detect_golden (mult : ℚ) (prev cur : Snapshot) :
    SigKind.golden_cross ∈ detectSignals mult prev cur ↔ goldenCross prev cur = true := by
  unfold detectSignals
  by_cases h1 : goldenCross prev cur <;> by_cases h2 : deadCross prev cur <;>
    by_cases h3 : volumeSpike mult cur <;> simp [h1, h2, h3]

theorem mem_detect_dead (mult : ℚ) (prev cur : Snapshot) :
    SigKind.dead_cross ∈ detectSignals mult prev cur ↔ deadCross prev cur = true := by
  unfold detectSignals
  by_cases h1 : goldenCross prev cur <;> by_cases h2 : deadCross prev cur <;>
    by_cases h3 : volumeSpike mult cur <;> simp [h1, h2, h3]

theorem goldenCross_iff (prev cur : Snapshot) :
    goldenCross prev cur = true ↔
      ∃ hp hc, prev.histogram = some hp ∧ cur.histogram = some hc ∧ hp ≤ 0 ∧ 0 < hc := by
  rcases hp : prev.histogram with _ | a <;> rcases hc : cur.histogram with _ | b <;>
    simp [goldenCross, hp, hc, and_assoc]

theorem deadCross_iff (prev cur : Snapshot) :
    deadCross prev cur = true ↔
      ∃ hp hc, prev.histogram = some hp ∧ cur.histogram = some hc ∧ 0 ≤ hp ∧ hc < 0 := by
  rcases hp : prev.histogram with _ | a <;> rcases hc : cur.histogram with _ | b <;>
    simp [deadCross, hp, hc, and_assoc]

/-- C4: for every pair of consecutive indicator snapshots, the Signal Detector
emits `golden_cross` exactly when the histogram at bar t is > 0 and at bar t-1
was ≤ 0, emits `dead_cross` exactly under the mirror condition, and never
emits both for the same bar; in particular neither is emitted on histogram
magnitude alone without a sign change. -/
theorem C4_cross_signals (mult : ℚ) (prev cur : Snapshot) :
    (SigKind.golden_cross ∈ detectSignals mult prev cur ↔
      ∃ hp hc, prev.histogram = some hp ∧ cur.histogram = some hc ∧ hp ≤ 0 ∧ 0 < hc) ∧
    (SigKind.dead_cross ∈ detectSignals mult prev cur ↔
      ∃ hp hc, prev.histogram = some hp ∧ cur.histogram = some hc ∧ 0 ≤ hp ∧ hc < 0) ∧
    ¬ (SigKind.golden_cross ∈ detectSignals mult prev cur ∧
        SigKind.dead_cross ∈ detectSignals mult prev cur) := by
  refine ⟨(mem_detect_golden mult prev cur).trans (goldenCross_iff prev cur),
    (mem_detect_dead mult prev cur).trans (deadCross_iff prev cur), ?_⟩
  rintro ⟨hg, hd⟩
  rw [mem_detect_golden, goldenCross_iff] at hg
  rw [mem_detect_dead, deadCross_iff] at hd
  obtain ⟨hp, hc, hphg, hchg, hple, hcpos⟩ := hg
  obtain ⟨hp2, hc2, hphd, hchd, hpge, hcneg⟩ := hd
  rw [hchg] at hchd
  cases hchd
  exact absurd hcpos (not_lt.mpr (le_of_lt hcneg))

theorem detect_notReady (mult : ℚ) (prev : Snapshot) :
    detectSignals mult prev Snapshot.notReady = [] := by
  have hg : goldenCross prev Snapshot.notReady = false := by
    rcases hp : prev.histogram with _ | a <;> simp [goldenCross, hp, Snapshot.notReady]
  have hd : deadCross prev Snapshot.notReady = false := by
    rcases hp : prev.histogram with _ | a <;> simp [deadCross, hp, Snapshot.notReady]
  have hv : volumeSpike mult Snapshot.notReady = false := by
    simp [volumeSpike, Snapshot.notReady]
  simp [detectSignals, hg, hd, hv]

/-- C8: for every Bar sequence, the Indicator Engine marks its output
not-ready until `bars_seen >= max(26, volume_window) + 9` warm-up bars have
been consumed, and the Signal Detector emits no signal (golden_cross,
dead_cross or volume_spike) for a bar whose snapshot is not marked ready. -/
theorem C8_warmup_readiness (w : ℕ) (hw : 0 < w) (mult : ℚ) (bars : List Bar)
    (prev : Snapshot) :
    ((incrementalSnapshot w bars).ready = true ↔ max 26 w + 9 ≤ bars.length) ∧
      ((incrementalSnapshot w bars).ready = false →
        detectSignals mult prev (incrementalSnapshot w bars) = []) := by
  have hsnap : incrementalSnapshot w bars =
      snapshotOf w (bars.foldl (update w) IndicatorState.init) := rfl
  have hseen : (bars.foldl (update w) IndicatorState.init).bars_seen = bars.length := by
    rw [update_fold_eq w hw bars]
  constructor
  · rw [hsnap]
    unfold snapshotOf
    rw [hseen]
    by_cases hcond : max 26 w + 9 ≤ bars.length
    · simp [hcond]
    · simp [hcond, Snapshot.notReady]
  · intro hnr
    have hcond : ¬ max 26 w + 9 ≤ bars.length := by
      intro hcond
      have : (incrementalSnapshot w bars).ready = true := by
        rw [hsnap]
        unfold snapshotOf
        rw [hseen]
        simp [hcond]
      rw [this] at hnr
      cases hnr
    have : incrementalSnapshot w bars = Snapshot.notReady := by
      rw [hsnap]
      unfold snapshotOf
      rw [hseen]
      simp [hcond]
    rw [this]
    exact detect_notReady mult prev

/-- Closed witness for C8: with the default 20-bar volume window and no bars
consumed, the snapshot is not ready and the detector stays silent. -/
theorem C8_witness :
    (incrementalSnapshot 20 []).ready = false ∧
      detectSignals 2 Snapshot.notReady (incrementalSnapshot 20 []) = [] := by
  have h := C8_warmup_readiness 20 (by norm_num) 2 [] Snapshot.notReady
  have hr : (incrementalSnapshot 20 []).ready = false := by
    rcases hb : (incrementalSnapshot 20 []).ready with _ | _
    · rfl
    · have := h.1.mp hb
      simp at this
  exact ⟨hr, h.2 hr⟩

/-- Modelled from the spec: the position lifecycle states {FLAT, LONG} (§3). -/
inductive PosState where
  | FLAT
  | LONG
deriving DecidableEq

/-- Modelled from the spec: why a Trade was closed (§3). -/
inductive ExitReason where
  | signal_exit
  | stop_loss
  | take_profit
  | session_end
deriving DecidableEq

/-- Modelled from the spec: an open Position
{entry_price, entry_time, stop_loss_price, take_profit_price} (§3). -/
structure Position where
  entry_price : ℚ
  entry_time : ℕ
  stop_loss_price : ℚ
  take_profit_price : ℚ
deriving DecidableEq

/-- Modelled from the spec: a closed Trade
{entry_time, entry_price, exit_time, exit_price, exit_reason, pnl} (§3). -/
structure Trade where
  entry_time : ℕ
  entry_price : ℚ
  exit_time : ℕ
  exit_price : ℚ
  exit_reason : ExitReason
  pnl : ℚ
deriving DecidableEq

/-- Modelled from the spec: a StrategyConfig {entry_rule, exit_rule,
stop_loss_pct, take_profit_pct}; a rule is the set of required signal kinds,
with same-bar coincidence (the spec's default lag 0) (§3, §4.3). -/
structure StrategyConfig where
  entry_rule : List SigKind
  exit_rule : List SigKind
  stop_loss_pct : ℚ
  take_profit_pct : ℚ

/-- A rule is satisfied when all of its required signal kinds occurred in the
current bar's signal set (§4.3, default max-lag 0). -/
def ruleSatisfied (rule : List SigKind) (signals : List SigKind) : Bool :=
  rule.all (fun k => signals.contains k)

/-- The strategy engine state for one symbol: the open position, if any (at
most one open Position per symbol, no pyramiding, §3). -/
def openPositions (pos : Option Position) : List Position := pos.toList

/-- Modelled from the spec: one step of the per-symbol Strategy Engine state
machine (§4.3).  In FLAT, a satisfied entry_rule opens a Position at the bar
close with stop/take-profit levels derived from the configured percentages.
In LONG, stop-loss (bar low ≤ stop), then take-profit (bar high ≥ take), then
the exit_rule signals are checked in that fixed priority order; the first
trigger closes the position at the triggering price and emits a Trade. -/
def strategyStep (cfg : StrategyConfig) (pos : Option Position) (bar : Bar)
    (signals : List SigKind) : Option Position × Option Trade :=
  match pos with
  | none =>
      if ruleSatisfied cfg.entry_rule signals then
        (some ⟨bar.close, bar.timestamp, bar.close * (1 - cfg.stop_loss_pct),
          bar.close * (1 + cfg.take_profit_pct)⟩, none)
      else (none, none)
  | some p =>
      if bar.low ≤ p.stop_loss_price then
        (none, some ⟨p.entry_time, p.entry_price, bar.timestamp, p.stop_loss_price,
          ExitReason.stop_loss, p.stop_loss_price - p.entry_price⟩)
      else if p.take_profit_price ≤ bar.high then
        (none, some ⟨p.entry_time, p.entry_price, bar.timestamp, p.take_profit_price,
          ExitReason.take_profit, p.take_profit_price - p.entry_price⟩)
      else if ruleSatisfied cfg.exit_rule signals then
        (none, some ⟨p.entry_time, p.entry_price, bar.timestamp, bar.close,
          ExitReason.signal_exit, bar.close - p.entry_price⟩)
      else (some p, none)

/-- Run the Strategy Engine over a sequence of (bar, signal-set) inputs,
starting FLAT, returning the final position. -/
def strategyRun (cfg : StrategyConfig) (inputs : List (Bar × List SigKind)) :
    Option Position :=
  inputs.foldl (fun pos bs => (strategyStep cfg pos bs.1 bs.2).1) none

/-- A concrete strategy configuration used by closed witness statements:
enter on a golden cross, exit on a dead cross, 5% stop-loss, 10% take-profit. -/
def strat0 : StrategyConfig :=
  ⟨[SigKind.golden_cross], [SigKind.dead_cross], 5/100, 10/100⟩

/-- C2: for every StrategyConfig and every sequence of signal sets fed to the
Strategy Engine, the per-symbol state machine never holds two simultaneous
open Positions (the open-position list always has length ≤ 1), the state
moves FLAT→LONG only on a qualifying entry (entry_rule satisfied, position
opened at the bar close, no trade emitted), and LONG→FLAT only on an exit
trade closing that position. -/
theorem C2_single_position_invariant (cfg : StrategyConfig)
    (inputs : List (Bar × List SigKind)) (pos : Option Position) (bar : Bar)
    (signals : List SigKind) :
    (openPositions (strategyRun cfg inputs)).length ≤ 1 ∧
      (pos = none → ∀ p, (strategyStep cfg pos bar signals).1 = some p →
        ruleSatisfied cfg.entry_rule signals = true ∧ p.entry_price = bar.close ∧
          (strategyStep cfg pos bar signals).2 = none) ∧
      (∀ p, pos = some p → (strategyStep cfg pos bar signals).1 = none →
        ∃ tr, (strategyStep cfg pos bar signals).2 = some tr ∧
          tr.entry_price = p.entry_price) := by
  refine ⟨?_, ?_, ?_⟩
  · rcases strategyRun cfg inputs with _ | p <;> simp [openPositions]
  · rintro rfl p hp
    by_cases hent : ruleSatisfied cfg.entry_rule signals
    · have hp2 : (⟨bar.close, bar.timestamp, bar.close * (1 - cfg.stop_loss_pct),
          bar.close * (1 + cfg.take_profit_pct)⟩ : Position) = p := by
        simp only [strategyStep, hent, if_true] at hp
        simpa using hp
      subst hp2
      refine ⟨hent, rfl, ?_⟩
      simp only [strategyStep, hent, if_true]
    · simp only [strategyStep, hent, if_false] at hp
      simp at hp
  · rintro p rfl hflat
    by_cases hsl : bar.low ≤ p.stop_loss_price
    · refine ⟨⟨p.entry_time, p.entry_price, bar.timestamp, p.stop_loss_price,
        ExitReason.stop_loss, p.stop_loss_price - p.entry_price⟩, ?_, rfl⟩
      simp only [strategyStep, hsl, if_true]
    · by_cases htp : p.take_profit_price ≤ bar.high
      · refine ⟨⟨p.entry_time, p.entry_price, bar.timestamp, p.take_profit_price,
          ExitReason.take_profit, p.take_profit_price - p.entry_price⟩, ?_, rfl⟩
        simp only [strategyStep, hsl, htp, if_false, if_true]
      · by_cases hex : ruleSatisfied cfg.exit_rule signals
        · refine ⟨⟨p.entry_time, p.entry_price, bar.timestamp, bar.close,
            ExitReason.signal_exit, bar.close - p.entry_price⟩, ?_, rfl⟩
          simp only [strategyStep, hsl, htp, hex, if_false, if_true]
        · exfalso
          simp only [strategyStep, hsl, htp, hex, if_false] at hflat
          simp at hflat

/-- Closed witness for C2: a golden cross in FLAT with `strat0` opens exactly
one position at the bar close without emitting a trade. -/
theorem C2_witness :
    ruleSatisfied strat0.entry_rule [SigKind.golden_cross] = true ∧
      Position.entry_price ⟨1, 0, 19/20, 11/10⟩ = demoBar.close ∧
      (strategyStep strat0 none demoBar [SigKind.golden_cross]).2 = none :=
  (C2_single_position_invariant strat0 [] none demoBar [SigKind.golden_cross]).2.1 rfl
    ⟨1, 0, 19/20, 11/10⟩ (by
      have hrs : ruleSatisfied strat0.entry_rule [SigKind.golden_cross] = true := by decide
      simp only [strategyStep, hrs, if_true]
      norm_num [demoBar, strat0, Position.mk.injEq])

/-- C3: while LONG, exit checks run in the fixed priority order
stop-loss > take-profit > signal exit: a bar whose low reaches the stop-loss
price closes at the stop-loss price with exit_reason stop_loss regardless of
take-profit or exit signals; only otherwise is take-profit checked, and only
after both is the signal exit applied at the bar close. -/
theorem C3_exit_priority (cfg : StrategyConfig) (p : Position) (bar : Bar)
    (signals : List SigKind) :
    (bar.low ≤ p.stop_loss_price →
      strategyStep cfg (some p) bar signals =
        (none, some ⟨p.entry_time, p.entry_price, bar.timestamp, p.stop_loss_price,
          ExitReason.stop_loss, p.stop_loss_price - p.entry_price⟩)) ∧
      (¬ bar.low ≤ p.stop_loss_price → p.take_profit_price ≤ bar.high →
        strategyStep cfg (some p) bar signals =
          (none, some ⟨p.entry_time, p.entry_price, bar.timestamp, p.take_profit_price,
            ExitReason.take_profit, p.take_profit_price - p.entry_price⟩)) ∧
      (¬ bar.low ≤ p.stop_loss_price → ¬ p.take_profit_price ≤ bar.high →
        ruleSatisfied cfg.exit_rule signals = true →
        strategyStep cfg (some p) bar signals =
          (none, some ⟨p.entry_time, p.entry_price, bar.timestamp, bar.close,
            ExitReason.signal_exit, bar.close - p.entry_price⟩)) := by
  refine ⟨?_, ?_, ?_⟩
  · intro hsl
    simp only [strategyStep, hsl, if_true]
  · intro hsl htp
    simp only [strategyStep, hsl, htp, if_false, if_true]
  · intro hsl htp hex
    simp only [strategyStep, hsl, htp, hex, if_false, if_true]

/-- Closed witness for C3, the spec's concrete scenario: an open LONG position
with stop_loss_price 95 and take_profit_price 110; a bar with low 94 and high
105 on which a dead cross (the exit signal of `strat0`) also occurs closes at
95 with exit_reason stop_loss. -/
theorem C3_witness :
    (94:ℚ) ≤ 95 ∧ ruleSatisfied strat0.exit_rule [SigKind.dead_cross] = true ∧
      strategyStep strat0 (some ⟨100, 0, 95, 110⟩) ⟨1, 100, 105, 94, 100, 1⟩
          [SigKind.dead_cross] =
        (none, some ⟨0, 100, 1, 95, ExitReason.stop_loss, -5⟩) := by
  refine ⟨by norm_num, by decide, ?_⟩
  have h := (C3_exit_priority strat0 ⟨100, 0, 95, 110⟩ ⟨1, 100, 105, 94, 100, 1⟩
    [SigKind.dead_cross]).1 (by norm_num)
  rw [h]
  norm_num [Prod.ext_iff, Trade.mk.injEq]

/-- Modelled from the spec: gross profit — the summed pnl of winning trades
(glossary: "gross winning trade value"). -/
def grossProfit (trades : List Trade) : ℚ :=
  ((trades.map Trade.pnl).filter (fun q => decide (0 < q))).sum

/-- Modelled from the spec: gross loss — the magnitude of the summed pnl of
losing trades (glossary: "gross losing trade value"). -/
def grossLoss (trades : List Trade) : ℚ :=
  -(((trades.map Trade.pnl).filter (fun q => decide (q < 0))).sum)

/-- Modelled from the spec: win_rate = (# trades with pnl > 0) / (# trades),
null when the trade count is 0 (§4.4). -/
def winRate (trades : List Trade) : Option ℚ :=
  if trades.length = 0 then none
  else some (((trades.filter (fun t => decide (0 < t.pnl))).length : ℚ) / trades.length)

/-- Modelled from the spec: profit factor values — a finite ratio or the
explicit "infinite" sentinel (§4.4, §9 "tagged optional/sentinel value"). -/
inductive PFValue where
  | finite (value : ℚ)
  | infinite
deriving DecidableEq

/-- Modelled from the spec: profit_factor = gross_profit / gross_loss, the
sentinel `infinite` when gross_loss = 0 with gross_profit > 0, and null when
both are 0 (§4.4). -/
def profitFactor (trades : List Trade) : Option PFValue :=
  if grossLoss trades = 0 then
    if 0 < grossProfit trades then some PFValue.infinite else none
  else some (PFValue.finite (grossProfit trades / grossLoss trades))

/-- Mean per-trade return (§4.4). -/
def meanRet (trades : List Trade) : ℚ :=
  (trades.map Trade.pnl).sum / trades.length

/-- Population variance of the per-trade returns; its square root is the
stdev of §4.4's Sharpe formula (zero exactly when the stdev is zero). -/
def varRet (trades : List Trade) : ℚ :=
  ((trades.map Trade.pnl).map (fun r => (r - meanRet trades) ^ 2)).sum / trades.length

/-- Modelled from the spec: sharpe_ratio = mean(return) / stdev(return) ×
sqrt(annualization factor), reported as null rather than raising when the
stdev is 0 — fewer than 2 trades or zero variance (§4.4, §7). -/
noncomputable def sharpeRatio (annualization : ℚ) (trades : List Trade) : Option ℝ :=
  if varRet trades = 0 then none
  else some (((meanRet trades : ℝ) / Real.sqrt ((varRet trades : ℚ) : ℝ)) *
    Real.sqrt ((annualization : ℚ) : ℝ))

theorem varRet_nil : varRet [] = 0 := by
  simp [varRet]

theorem varRet_singleton (t : Trade) : varRet [t] = 0 := by
  simp [varRet, meanRet]

/-- C5: mathematically undefined metrics are reported as an explicit
null/sentinel rather than raising or producing NaN: win_rate is null on an
empty trade log, sharpe_ratio is null when the trade count is below 2 or the
variance of returns is zero, profit_factor is the sentinel `infinite` when
gross_loss = 0 with gross_profit > 0 and null when both are 0. -/
theorem C5_undefined_metrics (annualization : ℚ) (trades : List Trade) :
    (trades.length = 0 → winRate trades = none) ∧
      (trades.length < 2 → sharpeRatio annualization trades = none) ∧
      (varRet trades = 0 → sharpeRatio annualization trades = none) ∧
      (grossLoss trades = 0 → 0 < grossProfit trades →
        profitFactor trades = some PFValue.infinite) ∧
      (grossLoss trades = 0 → grossProfit trades = 0 → profitFactor trades = none) := by
  refine ⟨?_, ?_, ?_, ?_, ?_⟩
  · intro h
    simp [winRate, h]
  · intro h
    have hv : varRet trades = 0 := by
      match trades with
      | [] => exact varRet_nil
      | [t] => exact varRet_singleton t
      | t :: u :: rest => exact absurd h (by simp)
    simp [sharpeRatio, hv]
  · intro hv
    simp [sharpeRatio, hv]
  · intro hgl hgp
    simp [profitFactor, hgl, hgp]
  · intro hgl hgp
    simp [profitFactor, hgl, hgp]

/-- A concrete closed trade with the given exit time and pnl, for witnesses. -/
def mkTrade (n : ℕ) (pnl : ℚ) : Trade :=
  ⟨0, 100, n, 100 + pnl, ExitReason.signal_exit, pnl⟩

/-- Closed witness for C5 on concrete trade logs. -/
theorem C5_witness :
    winRate [] = none ∧ sharpeRatio 252 [mkTrade 1 10] = none ∧
      profitFactor [mkTrade 1 10] = some PFValue.infinite ∧ profitFactor [] = none := by
  have h0 := C5_undefined_metrics 252 []
  have h1 := C5_undefined_metrics 252 [mkTrade 1 10]
  refine ⟨h0.1 rfl, h1.2.1 (by norm_num), ?_, ?_⟩
  · refine h1.2.2.2.1 ?_ ?_
    · norm_num [grossLoss, mkTrade, List.filter]
    · norm_num [grossProfit, mkTrade, List.filter]
  · refine h0.2.2.2.2 ?_ ?_
    · norm_num [grossLoss, List.filter]
    · norm_num [grossProfit, List.filter]

/-- C7: for every trade log with nonzero gross loss, profit_factor is the
finite ratio gross_profit / gross_loss. -/
theorem C7_profit_factor (trades : List Trade) (h : grossLoss trades ≠ 0) :
    profitFactor trades = some (PFValue.finite (grossProfit trades / grossLoss trades)) := by
  simp [profitFactor, h]

/-- The spec's concrete profit-factor trade log, with pnl values
[10, -5, 20, -5]. -/
def demoTrades : List Trade := [mkTrade 1 10, mkTrade 2 (-5), mkTrade 3 20, mkTrade 4 (-5)]

/-- Closed witness for C7: on pnl values [10, -5, 20, -5] the profit factor is
30/10 = 3. -/
theorem C7_witness :
    grossLoss demoTrades = 10 ∧ grossProfit demoTrades = 30 ∧
      profitFactor demoTrades = some (PFValue.finite 3) := by
  have hgl : grossLoss demoTrades = 10 := by
    norm_num [grossLoss, demoTrades, mkTrade, List.filter]
  have hgp : grossProfit demoTrades = 30 := by
    norm_num [grossProfit, demoTrades, mkTrade, List.filter]
  refine ⟨hgl, hgp, ?_⟩
  rw [C7_profit_factor demoTrades (by rw [hgl]; norm_num), hgl, hgp]
  norm_num

/-- One step of the incremental running-maximum-drawdown computation: track
the peak equity so far and the largest drawdown seen. -/
def ddStep (s : ℚ × ℚ) (e : ℚ) : ℚ × ℚ :=
  let peak := max s.1 e
  (peak, max s.2 ((peak - e) / peak))

/-- Modelled from the spec: max_drawdown over an equity curve, computed in a
single pass (§4.4). -/
def maxDrawdown (equity : List ℚ) : ℚ := (equity.foldl ddStep (0, 0)).2

/-- The peak equity reached up to and including index `t`. -/
def peakAt (equity : List ℚ) (t : ℕ) : ℚ := (equity.take (t + 1)).foldl max 0

/-- The drawdown at index `t`: (peak equity so far − current equity) / peak. -/
def drawdownAt (equity : List ℚ) (t : ℕ) : ℚ :=
  (peakAt equity t - equity.getD t 0) / peakAt equity t

/-- The spec formula: max over time of (peak equity so far − current equity) /
peak equity (§4.4). -/
def maxDrawdownSpec (equity : List ℚ) : ℚ :=
  ((List.range equity.length).map (drawdownAt equity)).foldl max 0

/-- Insert a trade into a list sorted by exit time. -/
def insertByExit (t : Trade) : List Trade → List Trade
  | [] => [t]
  | u :: us => if t.exit_time ≤ u.exit_time then t :: u :: us else u :: insertByExit t us

/-- Sort a trade log by exit time (§4.4: pnl applied in exit-time order). -/
def sortByExit (trades : List Trade) : List Trade := trades.foldr insertByExit []

/-- Modelled from the spec: the cumulative equity curve built by applying each
trade's pnl in order to the initial capital (§4.4). -/
def equityCurve (init : ℚ) (trades : List Trade) : List ℚ :=
  (trades.map Trade.pnl).scanl (fun a b => a + b) init

/-- Modelled from the spec: the max_drawdown metric of a backtest — the
single-pass drawdown computation over the equity curve built from the trade
log in exit-time order (§4.4). -/
def backtestMaxDrawdown (init : ℚ) (trades : List Trade) : ℚ :=
  maxDrawdown (equityCurve init (sortByExit trades))

theorem foldl_max_append (xs : List ℚ) (x : ℚ) :
    (xs ++ [x]).foldl max 0 = max (xs.foldl max 0) x := by
  rw [List.foldl_append, List.foldl_cons, List.foldl_nil]

theorem dd_fold_eq (equity : List ℚ) :
    equity.foldl ddStep (0, 0) = (equity.foldl max 0, maxDrawdownSpec equity) := by
  induction equity using List.reverseRecOn with
  | nil => simp [maxDrawdownSpec]
  | append_singleton eq e ih =>
      rw [List.foldl_append, List.foldl_cons, List.foldl_nil, ih]
      have hspec : maxDrawdownSpec (eq ++ [e]) =
          max (maxDrawdownSpec eq) ((max (eq.foldl max 0) e - e) / max (eq.foldl max 0) e) := by
        unfold maxDrawdownSpec
        have hlen : (eq ++ [e]).length = eq.length + 1 := by simp
        rw [hlen, List.range_succ, List.map_append, List.map_cons, List.map_nil,
          foldl_max_append]
        have hmap : (List.range eq.length).map (drawdownAt (eq ++ [e])) =
            (List.range eq.length).map (drawdownAt eq) := by
          apply List.map_congr_left
          intro t ht
          rw [List.mem_range] at ht
          unfold drawdownAt peakAt
          rw [List.take_append_of_le_length (by omega), List.getD_append _ _ _ _ ht]
        have hlast : drawdownAt (eq ++ [e]) eq.length =
            (max (eq.foldl max 0) e - e) / max (eq.foldl max 0) e := by
          unfold drawdownAt peakAt
          have htake : (eq ++ [e]).take (eq.length + 1) = eq ++ [e] :=
            List.take_of_length_le (by simp)
          have hgd : (eq ++ [e]).getD eq.length 0 = e := by simp [List.getD_append_right]
          rw [htake, foldl_max_append, hgd]
        rw [hmap, hlast]
      rw [hspec]
      unfold ddStep
      rw [foldl_max_append]

/-- C6: for every trade log, backtest max_drawdown equals the spec formula
max over time of (peak equity so far − current equity) / peak equity over the
cumulative equity curve built by applying each trade's pnl in exit-time
order; and on the synthetic equity curve [100, 120, 90, 130] the drawdown is
25% (peak 120, trough 90). -/
theorem C6_max_drawdown (init : ℚ) (trades : List Trade) (equity : List ℚ) :
    backtestMaxDrawdown init trades =
        maxDrawdownSpec (equityCurve init (sortByExit trades)) ∧
      maxDrawdown equity = maxDrawdownSpec equity ∧
      maxDrawdown [100, 120, 90, 130] = 1/4 := by
  have hmain : ∀ es : List ℚ, maxDrawdown es = maxDrawdownSpec es := by
    intro es
    unfold maxDrawdown
    rw [dd_fold_eq]
  refine ⟨hmain _, hmain equity, ?_⟩
  unfold maxDrawdown ddStep
  norm_num [max_def]

/-- Modelled from the spec: feed contract violations (§7):
`OutOfOrderBar` when a bar's timestamp is not strictly greater than the
previous one, `TimestampGap` when the gap-free contract is violated. -/
inductive FeedError where
  | OutOfOrderBar
  | TimestampGap
deriving DecidableEq

/-- Modelled from the spec: the feed-facing engine state — the last accepted
timestamp guarding the indicator state behind it (§5, §6). -/
structure FeedState where
  last_ts : Option ℕ
  ind : IndicatorState
deriving DecidableEq

/-- Modelled from the spec: applying one bar from the feed (§6, §7).  The
engine assumes gap-free, strictly increasing timestamps (consecutive bars one
interval apart): a bar whose timestamp is not strictly greater than the last
fails fast with `OutOfOrderBar`, a gap fails fast with `TimestampGap`, each
surfaced to the caller with the bar left unapplied — unless a gap-fill policy
is explicitly configured (`gapFill`), which accepts gaps (but never
out-of-order bars). -/
def applyBarChecked (gapFill : Bool) (w : ℕ) (st : FeedState) (bar : Bar) :
    Except FeedError FeedState :=
  match st.last_ts with
  | none => Except.ok ⟨some bar.timestamp, update w st.ind bar⟩
  | some t =>
      if bar.timestamp ≤ t then Except.error FeedError.OutOfOrderBar
      else if bar.timestamp ≠ t + 1 ∧ gapFill = false then Except.error FeedError.TimestampGap
      else Except.ok ⟨some bar.timestamp, update w st.ind bar⟩

/-- C9: against a last accepted timestamp, a bar whose timestamp is not
strictly greater is rejected with the OutOfOrderBar error, and a bar
violating the gap-free contract is rejected with the TimestampGap error
unless a gap-fill policy is explicitly configured; in both cases the engine
fails fast — an error is surfaced to the caller and no updated state is
produced. -/
theorem C9_feed_contract (gapFill : Bool) (w : ℕ) (st : FeedState) (bar : Bar) (t : ℕ)
    (hlast : st.last_ts = some t) :
    (bar.timestamp ≤ t →
      applyBarChecked gapFill w st bar = Except.error FeedError.OutOfOrderBar) ∧
      (t < bar.timestamp → bar.timestamp ≠ t + 1 → gapFill = false →
        applyBarChecked gapFill w st bar = Except.error FeedError.TimestampGap) := by
  constructor
  · intro hle
    simp [applyBarChecked, hlast, hle]
  · intro hgt hne hnf
    have hnle : ¬ bar.timestamp ≤ t := not_le.mpr hgt
    simp [applyBarChecked, hlast, hnle, hne, hnf]

/-- Closed witness for C9: after a bar at timestamp 5, a bar at timestamp 5 is
rejected as out-of-order and a bar at timestamp 7 as a gap (no gap-fill
configured). -/
theorem C9_witness :
    applyBarChecked false 20 ⟨some 5, IndicatorState.init⟩ ⟨5, 1, 1, 1, 1, 1⟩ =
        Except.error FeedError.OutOfOrderBar ∧
      applyBarChecked false 20 ⟨some 5, IndicatorState.init⟩ ⟨7, 1, 1, 1, 1, 1⟩ =
        Except.error FeedError.TimestampGap :=
  ⟨(C9_feed_contract false 20 ⟨some 5, IndicatorState.init⟩ ⟨5, 1, 1, 1, 1, 1⟩ 5 rfl).1
      (by norm_num),
    (C9_feed_contract false 20 ⟨some 5, IndicatorState.init⟩ ⟨7, 1, 1, 1, 1, 1⟩ 5 rfl).2
      (by norm_num) (by norm_num) rfl⟩

/-- A DOM-like element tree: the shallow embedding of the JSX trees returned
by the frontend components in `src/frontend/src/app/page.tsx`. -/
inductive Node where
  | elem (tag : String) (className : String) (children : List Node)
  | text (s : String)

mutual

/-- All text content of a node, in document order. -/
def Node.texts : Node → List String
  | Node.text s => [s]
  | Node.elem _ _ children => textsList children

/-- All text content of a list of sibling nodes. -/
def textsList : List Node → List String
  | [] => []
  | n :: ns => n.texts ++ textsList ns

end

mutual

/-- The text content of all `h2` heading elements in a node. -/
def Node.headings : Node → List String
  | Node.text _ => []
  | Node.elem tag _ children =>
      if tag = "h2" then textsList children ++ headingsList children
      else headingsList children

/-- The text content of all `h2` heading elements below sibling nodes. -/
def headingsList : List Node → List String
  | [] => []
  | n :: ns => n.headings ++ headingsList ns

end

/-- Embedded from `src/frontend/src/app/page.tsx`: the `Home` page component.
It takes no props; JSX comments produce no DOM nodes, so each card is a `div`
with an `h2` heading and a `p` placeholder paragraph. -/
def Home : Unit → Node := fun _ =>
  Node.elem "div" "space-y-6"
    [Node.elem "div" "bg-white shadow rounded-lg p-6"
      [Node.elem "h2" "text-lg font-medium text-gray-900 mb-4"
        [Node.text "Formula Builder"],
       Node.elem "p" "text-gray-500"
        [Node.text "Create custom screening formulas for convertible bonds."]],
     Node.elem "div" "bg-white shadow rounded-lg p-6"
      [Node.elem "h2" "text-lg font-medium text-gray-900 mb-4"
        [Node.text "Screening Results"],
       Node.elem "p" "text-gray-500"
        [Node.text "Results will appear here after executing a formula."]]]

/-- C10: the Home page component takes no inputs and is deterministic — being
a pure function of a unit argument, every invocation returns the identical
element tree, and rendering reads or mutates no external state; the tree is a
static page containing the headings "Formula Builder" and "Screening Results"
together with their placeholder paragraph texts. -/
theorem C10_home_page_static :
    (∀ u v : Unit, Home u = Home v) ∧
      "Formula Builder" ∈ (Home ()).headings ∧
      "Screening Results" ∈ (Home ()).headings ∧
      "Create custom screening formulas for convertible bonds." ∈ (Home ()).texts ∧
      "Results will appear here after executing a formula." ∈ (Home ()).texts := by
  refine ⟨fun u v => rfl, ?_, ?_, ?_, ?_⟩ <;>
    simp [Home, Node.headings, headingsList, Node.texts, textsList]
